import Mathlib

/-
Verification development for the foreign-key gathering engine of the
kysely-rizzolver library.

The embedding translates the runtime behaviour of:
  * src/model-collection.ts  (newModelCollection: add / get / addCollection)
  * src/fks.ts               (gatherModelFks, _collectGatherData,
                              _baseToGatheredModel, ModelFkGatherError)
  * src/selector.ts          (newSelector._rowToModel / parse)
  * src/query-context.ts     (newQueryContext: add / cols / table / run)
  * src/kysely-rizzolver.ts  (KyselyRizzolver.gatherOne / gatherOneX /
                              gatherSome)

JavaScript dynamic values are modelled by `JsValue`; `null` and `undefined`
are distinct constructors because the source distinguishes them in places
(`fkValue !== null && fkValue !== undefined`).  Floating point NaN is not
modelled: all numeric ids in the engine are integers.  JavaScript objects
used as string-keyed records are modelled as association lists with unique
keys; insertion order of JavaScript numeric object keys (ascending) is not
reproduced, only the key-to-value mapping, which is all the engine reads.
-/

inductive JsValue : Type where
  | vNull : JsValue
  | vUndefined : JsValue
  | vNum : Int → JsValue
  | vStr : String → JsValue
  | vBool : Bool → JsValue
deriving DecidableEq, Repr

/-- JavaScript truthiness of a `JsValue` (`!!v`). -/
def jsTruthy : JsValue → Bool
  | .vNull => false
  | .vUndefined => false
  | .vNum n => n ≠ 0
  | .vStr s => s ≠ ""
  | .vBool b => b

/-- `JSON.stringify(v)` as it appears inside a template literal in the source
(for `undefined` the template literal renders the string "undefined"). -/
def jsonStringify : JsValue → String
  | .vNull => "null"
  | .vUndefined => "undefined"
  | .vNum n => toString n
  | .vStr s => "\"" ++ s ++ "\""
  | .vBool b => if b then "true" else "false"

/-- Template-literal coercion of a `JsValue` (backtick-string `${v}`). -/
def jsTemplateStr : JsValue → String
  | .vNull => "null"
  | .vUndefined => "undefined"
  | .vNum n => toString n
  | .vStr s => s
  | .vBool b => if b then "true" else "false"

/-- A flat model: a parsed row of one table, a string-keyed record of
JavaScript values (`Record<string, unknown>` in the source). -/
abbrev FlatModel := List (String × JsValue)

/-- Property read `m[k]` on a JavaScript object: an absent key yields
`undefined`. -/
def jsGet (m : FlatModel) (k : String) : JsValue :=
  (List.lookup k m).getD .vUndefined

/-- The `ModelCollection` data: `tableName → (id → flat model)`
(`ModelSelectables<DB>` in src/model-collection.ts). -/
abbrev ModelCollection := List (String × List (Int × FlatModel))

/-- `collection[k] = v` on a JavaScript record: overwrite the entry when the
key is present, append it otherwise. -/
def listUpsert {α β : Type} [DecidableEq α] (l : List (α × β)) (k : α) (v : β) :
    List (α × β) :=
  match l with
  | [] => [(k, v)]
  | (k', v') :: rest => if k' = k then (k, v) :: rest else (k', v') :: listUpsert rest k v

/-- The empty collection produced by `newModelCollection()`. -/
def mcEmpty : ModelCollection := []

/-- `ModelCollection.add(table, selectable)` from src/model-collection.ts:
the model is ignored unless it is present and has a truthy numeric `id`
(so id `0`, a missing id, or a non-numeric id is silently skipped); then
`collection[table][selectable.id] = selectable`. -/
def ModelCollection.add (mc : ModelCollection) (table : String)
    (selectable : Option FlatModel) : ModelCollection :=
  match selectable with
  | none => mc
  | some sel =>
    match List.lookup "id" sel with
    | some (.vNum n) =>
      if n = 0 then mc
      else listUpsert mc table (listUpsert ((List.lookup table mc).getD []) n sel)
    | _ => mc

/-- The three possible shapes returned by the overloaded
`ModelCollection.get` of the source: the whole data, one table's record, or
a single model lookup. -/
inductive MCGetResult : Type where
  | whole : ModelCollection → MCGetResult
  | tableRec : List (Int × FlatModel) → MCGetResult
  | single : Option FlatModel → MCGetResult
deriving DecidableEq, Repr

/-- `ModelCollection.get(table?, id?)` from src/model-collection.ts.  The
source tests its arguments for JavaScript falsiness: a missing or empty
table name returns the whole collection, a missing id or id `0` returns
the table's record (`collection[table] ?? \x7b\x7d`), and only a non-zero id
performs the single lookup `collection[table]?.[id]`. -/
def ModelCollection.get (mc : ModelCollection) (table : Option String)
    (id : Option Int) : MCGetResult :=
  match table with
  | none => .whole mc
  | some t =>
    if t = "" then .whole mc
    else
      match id with
      | none => .tableRec ((List.lookup t mc).getD [])
      | some i =>
        if i = 0 then .tableRec ((List.lookup t mc).getD [])
        else .single ((List.lookup t mc).bind (fun inner => List.lookup i inner))

/-- `ModelCollection.addCollection(collection)`: re-adds every model of the
source collection through `add` (iteration over `Object.entries` of the
outer record and `Object.values` of each inner record). -/
def ModelCollection.addCollection (target src : ModelCollection) : ModelCollection :=
  src.foldl (fun acc p => p.2.foldl (fun acc2 q => acc2.add p.1 (some q.2)) acc) target

/-- One foreign-key definition entry (`FKDefsEntry`): source column, target
table and column, nullability. -/
structure FkDef : Type where
  myColumn : String
  otherTable : String
  otherColumn : String
  isNullable : Bool
deriving DecidableEq, Repr

/-- The foreign-key definitions (`KyselyRizzolverFKs`): per table an ordered
record of named edges (`Object.entries` order). -/
abbrev FkDefs := List (String × List (String × FkDef))

/-- `fkDefs[table] ?? \x7b\x7d`. -/
def lookupEdges (fkDefs : FkDefs) (table : String) : List (String × FkDef) :=
  (List.lookup table fkDefs).getD []

/-- The structured content of a `ModelFkGatherError` reason.  The source
stores only the rendered message string; the constructors here carry the
interpolated data and `renderReason` rebuilds the exact source text. -/
inductive FkReason : Type where
  | invalidValue : String → String → JsValue → FkReason
  | missingModel : String → String → JsValue → FkReason
deriving DecidableEq, Repr

/-- The reason text interpolated by src/fks.ts. -/
def renderReason : FkReason → String
  | .invalidValue fkName column got =>
    "Invalid looking FK value for reference '" ++ fkName ++ "' (column: '" ++
      column ++ "'). Expected positive number, got: '" ++ jsonStringify got ++ "'"
  | .missingModel fkName column refId =>
    "Could not find model for FK reference '" ++ fkName ++ "' (column: '" ++
      column ++ "') for id " ++ jsTemplateStr refId

/-- A thrown error: either a plain `Error(msg)` or a `ModelFkGatherError`
with its table, id and structured reason. -/
inductive GatherErr : Type where
  | generic : String → GatherErr
  | fkGather : String → Int → FkReason → GatherErr
deriving DecidableEq, Repr

/-- The `message` property of the thrown error (`ModelFkGatherError`'s
constructor builds `Failed to gather model (table: '...', id: ...): ...`). -/
def renderGatherErr : GatherErr → String
  | .generic msg => msg
  | .fkGather table id reason =>
    "Failed to gather model (table: '" ++ table ++ "', id: " ++ toString id ++
      "): " ++ renderReason reason

/-- The invalid-reference policies (`GatherOpts.onInvalidModel`). -/
inductive Policy : Type where
  | omit : Policy
  | throw : Policy
  | null : Policy
  | keep : Policy
deriving DecidableEq, Repr

/-- A gathered model: `\x7b __fkDepth, __table, ...baseModel \x7d` plus the
foreign-key slots assigned by name during reconstruction.  The source
stores the slots on the same object as the columns; the embedding keeps
them apart (edge names never collide with column names in the engine's
schemas, and the spec's data model also treats them as separate slots). -/
inductive GatheredModel : Type where
  | mk : Nat → String → FlatModel → List (String × Option GatheredModel) → GatheredModel

/-- The `__fkDepth` tag of a gathered model. -/
def GatheredModel.fkDepth : GatheredModel → Nat
  | .mk d _ _ _ => d

/-- The `__table` tag of a gathered model. -/
def GatheredModel.table : GatheredModel → String
  | .mk _ t _ _ => t

/-- The base columns of a gathered model. -/
def GatheredModel.base : GatheredModel → FlatModel
  | .mk _ _ b _ => b

/-- The named foreign-key slots of a gathered model, in edge order. -/
def GatheredModel.slots : GatheredModel → List (String × Option GatheredModel)
  | .mk _ _ _ s => s

/-- The source's hard-error test on a foreign-key column value:
`fkValue !== null && fkValue !== undefined && typeof fkValue !== 'number'`.
Note that every number passes, negative ones included. -/
def invalidShape : JsValue → Bool
  | .vNull => false
  | .vUndefined => false
  | .vNum _ => false
  | _ => true

/-- `collection.get(fkDef.otherTable, fkValue) ?? null` as invoked by the
reconstructor.  At every call site `fkValue` is a non-zero number, so the
single-lookup branch of `get` is taken whenever the table name is
non-empty; for an empty target table name the source would return the
whole table record (a truthy object) — that degenerate corner is outside
this embedding and is excluded by hypothesis where it matters. -/
def collectionGetModel (coll : ModelCollection) (t : String) (n : Int) :
    Option FlatModel :=
  match coll.get (some t) (some n) with
  | .single m => m
  | _ => none

/-- The edge-processing loop of `_baseToGatheredModel` (the `for` loop over
`Object.entries(myFkDefs)` in src/fks.ts lines 291-337).  `recFn` is the
recursive call `_baseToGatheredModel(fkDefs, fkDef.otherTable, other,
collection, depth - 1, onInvalidModel)` supplied by the caller;
`modelDepth` is the `__fkDepth` written into the assembled model and
`acc` the slots assigned so far (in reverse). -/
def processEdges (coll : ModelCollection) (table : String)
    (baseModel : FlatModel) (modelDepth : Nat) (pol : Policy) (myId : Int)
    (recFn : String → FlatModel → Except GatherErr (Option GatheredModel)) :
    List (String × FkDef) → List (String × Option GatheredModel) →
    Except GatherErr (Option GatheredModel)
  | [], acc => .ok (some (.mk modelDepth table baseModel acc.reverse))
  | (fkName, fkDef) :: rest, acc =>
    let fkValue := jsGet baseModel fkDef.myColumn
    if invalidShape fkValue then
      .error (.fkGather table myId (.invalidValue fkName fkDef.myColumn fkValue))
    else
      let expectsOtherModel : Bool :=
        fkValue ≠ JsValue.vNull ∧ fkValue ≠ JsValue.vUndefined ∧ fkValue ≠ JsValue.vNum 0
      let otherBaseModel : Option FlatModel :=
        if expectsOtherModel then
          match fkValue with
          | .vNum n => collectionGetModel coll fkDef.otherTable n
          | _ => none
        else none
      let isValid : Bool := expectsOtherModel = otherBaseModel.isSome
      if !isValid && (pol = Policy.omit ∨ pol = Policy.null) then .ok none
      else if !isValid && pol = Policy.throw then
        .error (.fkGather table myId (.missingModel fkName fkDef.myColumn fkValue))
      else
        match otherBaseModel with
        | some other =>
          match recFn fkDef.otherTable other with
          | .error e => .error e
          | .ok v => processEdges coll table baseModel modelDepth pol myId recFn rest ((fkName, v) :: acc)
        | none => processEdges coll table baseModel modelDepth pol myId recFn rest ((fkName, none) :: acc)

/-- `_baseToGatheredModel` from src/fks.ts: depth 0 returns the tagged flat
model unchanged; otherwise the model must carry a truthy numeric `id` and
every declared edge of its table is processed in order. -/
def baseToGatheredModel (fkDefs : FkDefs) (table : String)
    (baseModel : FlatModel) (collection : ModelCollection) :
    Nat → Policy → Except GatherErr (Option GatheredModel)
  | 0, _ => .ok (some (.mk 0 table baseModel []))
  | d + 1, onInvalidModel =>
    match jsGet baseModel "id" with
    | .vNum myId =>
      if myId = 0 then .error (.generic "Expected model to have a valid id")
      else
        processEdges collection table baseModel (d + 1) onInvalidModel myId
          (fun t m => baseToGatheredModel fkDefs t m collection d onInvalidModel)
          (lookupEdges fkDefs table) []
    | _ => .error (.generic "Expected model to have a valid id")

/-- The maximum gather depth (`MAX_FK_GATHER_DEPTH` in src/fks.ts). -/
def MAX_FK_GATHER_DEPTH : Nat := 3

/-- The schema registry held by a `KyselyRizzolver`: per-table column lists,
the foreign-key definitions, and the configured default gather depth
(`MAX_FK_GATHER_DEPTH` unless overridden at construction). -/
structure Rizzolver : Type where
  fkDefs : FkDefs
  tableToColumns : List (String × List String)
  defaultGatherDepth : Nat := MAX_FK_GATHER_DEPTH

/-- The per-alias data a `Selector` contributes to a query context: its
table name and selected column names. -/
structure SelectorE : Type where
  tableName : String
  columns : List String
deriving DecidableEq, Repr

/-- A query context (`newQueryContext`): the ordered record of selectors,
keyed by alias, plus the schema's column registry that `add` consults. -/
structure QueryContext : Type where
  ttc : List (String × List String)
  selectors : List (String × SelectorE)
deriving DecidableEq, Repr

/-- `rizzolver.newQueryContext()`. -/
def newQueryContext (rz : Rizzolver) : QueryContext :=
  { ttc := rz.tableToColumns, selectors := [] }

/-- `QueryContext.add(table, alias)` from src/query-context.ts: rejects an
empty alias, then builds the selector (which dereferences the table's
column list — an unregistered table raises the JavaScript TypeError
modelled by the second error), then rejects a duplicate alias. -/
def QueryContext.add (qc : QueryContext) (table : String) (alias_ : String) :
    Except GatherErr QueryContext :=
  if alias_ = "" then
    .error (.generic "Must provide an alias when calling QueryContext.add with a table name")
  else
    match List.lookup table qc.ttc with
    | none => .error (.generic "Cannot read properties of undefined (reading 'map')")
    | some cols =>
      if (List.lookup alias_ qc.selectors).isSome then
        .error (.generic ("Alias \"" ++ alias_ ++ "\" is already in use"))
      else
        .ok { qc with selectors := qc.selectors ++ [(alias_, ⟨table, cols⟩)] }

/-- `QueryContext.table(alias)`: the `"table as alias"` expression of the
selector registered under `alias`. -/
def QueryContext.tableExpr (qc : QueryContext) (alias_ : String) :
    Except GatherErr String :=
  match List.lookup alias_ qc.selectors with
  | none => .error (.generic ("Table \"" ++ alias_ ++ "\" not added to this query context"))
  | some s => .ok (s.tableName ++ " as " ++ alias_)

/-- `QueryContext.cols()` with no arguments: every selector's
`"alias.col as _alias_col"` expressions, in selector order. -/
def QueryContext.cols (qc : QueryContext) : List String :=
  qc.selectors.flatMap fun p =>
    p.2.columns.map fun c => p.1 ++ "." ++ c ++ " as _" ++ p.1 ++ "_" ++ c

/-- One join step recorded by `_collectGatherData`: the aliased table of the
LEFT JOIN and the two column references of its `onRef` condition. -/
structure GatherItem : Type where
  tableAlias : String
  joinLeft : String
  joinRight : String
deriving DecidableEq, Repr

/-- The `for` loop body of `_collectGatherData`: for each edge of the
current table allocate the next `fk<n>` alias, add the referenced table
under it, record the LEFT JOIN step, and recurse into the referenced
table one level shallower (`recFn`, supplied as
`_collectGatherData(fkDefs, fkDef.otherTable, qb, depthLeft - 1, result)`).
Join steps are accumulated in the source's push order. -/
def collectEdges (myAlias : String)
    (recFn : String → QueryContext → Except GatherErr (QueryContext × List GatherItem)) :
    List (String × FkDef) → QueryContext →
    Except GatherErr (QueryContext × List GatherItem)
  | [], qc => .ok (qc, [])
  | (_, fkDef) :: rest, qc => do
    let otherAlias := "fk" ++ toString qc.selectors.length
    let qc1 ← qc.add fkDef.otherTable otherAlias
    let tAlias ← qc1.tableExpr otherAlias
    let item : GatherItem :=
      { tableAlias := tAlias
        joinLeft := myAlias ++ "." ++ fkDef.myColumn
        joinRight := otherAlias ++ "." ++ fkDef.otherColumn }
    let (qc2, subItems) ← recFn fkDef.otherTable qc1
    let (qc3, restItems) ← collectEdges myAlias recFn rest qc2
    .ok (qc3, item :: (subItems ++ restItems))

/-- `_collectGatherData` from src/fks.ts: returns immediately when
`depthLeft <= 0`, otherwise expands every declared edge of `table` and
recurses with `depthLeft - 1`.  The alias of the current table is the
table name itself for the root (one selector so far) and the most
recently allocated `fk<n>` alias otherwise. -/
def collectGatherData (fkDefs : FkDefs) (table : String) (qc : QueryContext) :
    Nat → Except GatherErr (QueryContext × List GatherItem)
  | 0 => .ok (qc, [])
  | d + 1 =>
    let myAlias :=
      if qc.selectors.length = 1 then table
      else "fk" ++ toString (qc.selectors.length - 1)
    collectEdges myAlias (fun t qc' => collectGatherData fkDefs t qc' d)
      (lookupEdges fkDefs table) qc

/-- The synchronous planning phase of `gatherModelFks` (everything before
the single query executes): register the root selector under the table's
own name, then run `_collectGatherData`. -/
def planGather (rz : Rizzolver) (table : String) (depth : Nat) :
    Except GatherErr (QueryContext × List GatherItem) := do
  let qc ← (newQueryContext rz).add table table
  collectGatherData rz.fkDefs table qc depth

/-- The single SELECT handed to the external query executor: root table,
LEFT JOIN steps and aliased column selections (the caller-supplied WHERE
predicate is part of the opaque executor). -/
structure Query : Type where
  fromTable : String
  joins : List GatherItem
  selectCols : List String
deriving DecidableEq, Repr

/-- A raw result row: aliased column names to values. -/
abbrev Row := List (String × JsValue)

/-- `Selector._rowToModel` from src/selector.ts: a row yields a flat model
for an alias only when the `_alias_id` column is truthy (a falsy id means
the LEFT JOIN found no matching row); the model maps each selected
column to its aliased cell. -/
def rowToModel (alias_ : String) (cols : List String) (row : Row) :
    Option FlatModel :=
  if jsTruthy (jsGet row ("_" ++ alias_ ++ "_id")) then
    some (cols.map fun c => (c, jsGet row ("_" ++ alias_ ++ "_" ++ c)))
  else none

/-- The model-collection side of `QueryContext.run`: every selector parses
every row and each surviving flat model is added to a fresh collection
(selector-major order, as in the source). -/
def qcRunModels (qc : QueryContext) (rows : List Row) : ModelCollection :=
  qc.selectors.foldl
    (fun mc p => rows.foldl (fun mc2 r => mc2.add p.2.tableName (rowToModel p.1 p.2.columns r)) mc)
    mcEmpty

/-- The per-row side of `QueryContext.run`: for each input row, the map
from alias to the flat model parsed for that row. -/
def qcRunRows (qc : QueryContext) (rows : List Row) :
    List (Row × List (String × Option FlatModel)) :=
  rows.map fun r => (r, qc.selectors.map fun p => (p.1, rowToModel p.1 p.2.columns r))

/-- The result of `QueryContext.run`: the parsed rows and the populated
model collection. -/
structure RunResult : Type where
  rows : List (Row × List (String × Option FlatModel))
  models : ModelCollection

/-- `QueryContext.run(callback)`: invokes the row-producing callback once
and parses its rows.  The callback threads the executor-invocation
counter so that the number of executor calls is observable. -/
def qcRun (qc : QueryContext) (callback : Nat → List Row × Nat) (c : Nat) :
    RunResult × Nat :=
  let (rows, c') := callback c
  ({ rows := qcRunRows qc rows, models := qcRunModels qc rows }, c')

/-- The options record of a gather call (`GatherOpts`). -/
structure GatherOptsE : Type where
  depth : Option Nat := none
  onInvalidModel : Option Policy := none
  modelCollection : Option ModelCollection := none

/-- `row.selectable[table]!` fed to `_baseToGatheredModel`: when the root
alias parsed no model the source passes `undefined`, which at depth 0 is
spread into a bare tagged object and at positive depth raises the
property-read TypeError on `baseModel['id']`. -/
def rootToGathered (fkDefs : FkDefs) (table : String) (m : Option FlatModel)
    (coll : ModelCollection) (depth : Nat) (pol : Policy) :
    Except GatherErr (Option GatheredModel) :=
  match m with
  | some base => baseToGatheredModel fkDefs table base coll depth pol
  | none =>
    match depth with
    | 0 => .ok (some (.mk 0 table [] []))
    | _ + 1 => .error (.generic "Cannot read properties of undefined (reading 'id')")

/-- `gatherModelFks` from src/fks.ts.  The executor is the abstract
`() => ky.execute()` callback; the trailing `Nat` counts its invocations.
Returns the reconstructed models (nulls filtered out under the `omit`
policy) together with the caller-supplied model collection after the
`modelCollection?.addCollection(collection)` merge (`none` when the
caller supplied no collection). -/
def gatherModelFks (rz : Rizzolver) (exec : Query → List Row) (table : String)
    (opts : GatherOptsE) (c : Nat) :
    Except GatherErr (List (Option GatheredModel) × Option ModelCollection) × Nat :=
  let depth := opts.depth.getD MAX_FK_GATHER_DEPTH
  let onInvalidModel := opts.onInvalidModel.getD .omit
  let modelCollection := opts.modelCollection
  match planGather rz table depth with
  | .error e => (.error e, c)
  | .ok (qc, items) =>
    let query : Query := { fromTable := table, joins := items, selectCols := qc.cols }
    let (rizzult, c') := qcRun qc (fun n => (exec query, n + 1)) c
    let collection := rizzult.models
    let updated := modelCollection.map fun mc => mc.addCollection collection
    match rizzult.rows.mapM
        (fun p => rootToGathered rz.fkDefs table ((List.lookup table p.2).join) collection depth onInvalidModel) with
    | .error e => (.error e, c')
    | .ok result =>
      if onInvalidModel = Policy.omit then
        (.ok (result.filter Option.isSome, updated), c')
      else (.ok (result, updated), c')

/-- The data of a `FkGatherOneResult` (`gatherType: 'gatherOne'`). -/
structure GatherOneResult : Type where
  table : String
  depth : Nat
  result : Option GatheredModel
  models : ModelCollection

/-- The data of a `FkGatherSomeResult` (`gatherType: 'gatherSome'`). -/
structure GatherSomeResult : Type where
  table : String
  depth : Nat
  result : List (Option GatheredModel)
  models : ModelCollection

/-- `KyselyRizzolver.gatherOne`: labels the result with
`opts?.depth ?? defaultGatherDepth`, creates a fresh model collection when
the caller supplied none, forwards the original `opts` to
`gatherModelFks`, and wraps `gather[0] ?? undefined`.  In the source the
local `modelCollection` aliases the caller's (mutated) object when one
was supplied; with no caller collection it is the fresh, never-populated
one. -/
def gatherOne (rz : Rizzolver) (exec : Query → List Row) (table : String)
    (opts : Option GatherOptsE) (c : Nat) :
    Except GatherErr GatherOneResult × Nat :=
  let depth := (opts.bind (·.depth)).getD rz.defaultGatherDepth
  match gatherModelFks rz exec table (opts.getD {}) c with
  | (.error e, c') => (.error e, c')
  | (.ok (gather, updated), c') =>
    let models :=
      match opts.bind (·.modelCollection) with
      | some _ => updated.getD mcEmpty
      | none => mcEmpty
    (.ok { table := table, depth := depth, result := gather.head?.join, models := models }, c')

/-- `KyselyRizzolver.gatherOneX`: as `gatherOne` but
`newGatherOneXResult` rejects a missing result. -/
def gatherOneX (rz : Rizzolver) (exec : Query → List Row) (table : String)
    (opts : Option GatherOptsE) (c : Nat) :
    Except GatherErr GatherOneResult × Nat :=
  match gatherOne rz exec table opts c with
  | (.error e, c') => (.error e, c')
  | (.ok r, c') =>
    match r.result with
    | none => (.error (.generic "Expected a gatherOneX result"), c')
    | some _ => (.ok r, c')

/-- `KyselyRizzolver.gatherSome`: filters the nulls out of the gather array
and rejects if any were present. -/
def gatherSome (rz : Rizzolver) (exec : Query → List Row) (table : String)
    (opts : Option GatherOptsE) (c : Nat) :
    Except GatherErr GatherSomeResult × Nat :=
  let depth := (opts.bind (·.depth)).getD rz.defaultGatherDepth
  match gatherModelFks rz exec table (opts.getD {}) c with
  | (.error e, c') => (.error e, c')
  | (.ok (gather, updated), c') =>
    let result := gather.filter Option.isSome
    if result.length < gather.length then
      (.error (.generic "Expected no nulls in fkGatherSome result"), c')
    else
      let models :=
        match opts.bind (·.modelCollection) with
        | some _ => updated.getD mcEmpty
        | none => mcEmpty
      (.ok { table := table, depth := depth, result := result, models := models }, c')

/-- The string `sub` occurs contiguously inside `s` ("the message contains
..."). -/
def strContains (s sub : String) : Prop :=
  ∃ pre post : String, s = pre ++ sub ++ post

def c6FkDefs : FkDefs := [("a", [("e", ⟨"x_id", "b", "id", false⟩)])]

def c6M : FlatModel := [("id", .vNum 1), ("x_id", .vNum 9)]

/-- The result never reports an `InvalidReferenceValue` whose recorded value
has a valid shape: every such error emitted by the engine carries the
offending non-null non-numeric value. -/
def invalidGotOnly (r : Except GatherErr (Option GatheredModel)) : Prop :=
  ∀ (t : String) (i : Int) (a b : String) (w : JsValue),
    r = .error (.fkGather t i (.invalidValue a b w)) → invalidShape w = true

def c3FkDefs : FkDefs := [("a", [("eneg", ⟨"x_id", "b", "id", false⟩)])]

def c3M : FlatModel := [("id", .vNum 7), ("x_id", .vNum (-5))]

def c3Coll : ModelCollection := [("b", [(-5, [("id", .vNum (-5))])])]

def c3WFkDefs : FkDefs := [("a", [("e", ⟨"x_id", "b", "id", false⟩)])]

def c3WM : FlatModel := [("id", .vNum 3), ("x_id", .vStr "bad")]

def c5FkDefs : FkDefs :=
  [("roottbl", [("edgeone", ⟨"b_id", "midtbl", "id", false⟩),
                ("EDGETWO", ⟨"c_id", "endtbl", "id", false⟩)]),
   ("midtbl", [("medge", ⟨"d_id", "endtbl", "id", false⟩)])]

def c5M : FlatModel := [("id", .vNum 41), ("b_id", .vNum 7), ("c_id", .vNum 937)]

def c5Coll : ModelCollection :=
  [("midtbl", [(7, [("id", .vNum 7), ("d_id", .vNum 555)])])]

def c5WFkDefs : FkDefs :=
  [("user", [("avatar_img", ⟨"avatar_img_id", "media_item", "id", false⟩)])]

def c5WM : FlatModel := [("id", .vNum 7), ("name", .vStr "Bob"), ("avatar_img_id", .vNum 999)]

def cycFkDefs : FkDefs :=
  [("a", [("b_fk", ⟨"b_id", "b", "id", false⟩)]),
   ("b", [("a_fk", ⟨"a_id", "a", "id", false⟩)])]

def cycTtc : List (String × List String) :=
  [("a", ["id", "b_id"]), ("b", ["id", "a_id"])]

def cycQc0 : QueryContext :=
  { ttc := cycTtc, selectors := [("a", ⟨"a", ["id", "b_id"]⟩)] }

def cycMa : FlatModel := [("id", .vNum 1), ("b_id", .vNum 2)]

def cycMb : FlatModel := [("id", .vNum 2), ("a_id", .vNum 1)]

def cycColl : ModelCollection := [("a", [(1, cycMa)]), ("b", [(2, cycMb)])]

def c1Rz : Rizzolver :=
  { fkDefs := [("fk1", [("e", ⟨"x_id", "t", "id", false⟩)])],
    tableToColumns := [("fk1", ["id", "x_id"]), ("t", ["id"])] }

def c2Rz : Rizzolver := { fkDefs := [], tableToColumns := [("user", ["id", "name"])] }

def c2Exec : Query → List Row :=
  fun _ => [[("_user_id", .vNum 1), ("_user_name", .vStr "Alice")]]

def c2UserModel : FlatModel := [("id", .vNum 1), ("name", .vStr "Alice")]

/-- The collection's internal invariant: at most one inner record per table
name and at most one flat model per id within it — hence at most one flat
model per `(table, id)` pair. -/
def mcWellFormed (mc : ModelCollection) : Prop :=
  (mc.map Prod.fst).Nodup ∧ ∀ p ∈ mc, (p.2.map Prod.fst).Nodup

/-- A sequence of `add(table, model)` calls, in order. -/
def mcAddAll (mc : ModelCollection) (adds : List (String × FlatModel)) :
    ModelCollection :=
  adds.foldl (fun acc p => acc.add p.1 (some p.2)) mc

/-- The most recently added model of a sequence whose table is `t'` and
whose `id` column holds the numeric value `n'`. -/
def lastMatch : List (String × FlatModel) → String → Int → Option FlatModel
  | [], _, _ => none
  | (t, m) :: rest, t', n' =>
    match lastMatch rest t' n' with
    | some r => some r
    | none =>
      if t = t' ∧ List.lookup "id" m = some (.vNum n') then some m else none

def c9M1 : FlatModel := [("id", .vNum 5), ("name", .vStr "one")]

def c9M2 : FlatModel := [("id", .vNum 5), ("name", .vStr "two")]

def c10Mc : ModelCollection := [("user", [(1, [("id", .vNum 1)])])]

def c10M : FlatModel := [("id", .vNum 0)]

/-- Substring containment coincides with list-infix of the underlying
character data, which is decidable on concrete strings. -/
theorem strContains_via_data (s sub : String) :
    strContains s sub ↔ sub.data <:+: s.data := by
  constructor
  · rintro ⟨p, q, rfl⟩
    exact ⟨p.data, q.data, by simp [String.data_append]⟩
  · rintro ⟨p, q, h⟩
    refine ⟨String.mk p, String.mk q, ?_⟩
    apply String.ext
    simpa [String.data_append] using h.symm

/-- C7: reconstruction at depth 0 returns the flat model's own columns
unchanged, tagged with `__fkDepth 0` and the table name, with no
foreign-key slot populated; the result does not depend on the
foreign-key definitions, the model collection or the policy, so no edge
is inspected, no lookup happens and no policy can take effect. -/
theorem c7_depth_zero_identity (fkDefs : FkDefs) (table : String)
    (m : FlatModel) (coll : ModelCollection) (pol : Policy) :
    baseToGatheredModel fkDefs table m coll 0 pol
      = .ok (some (.mk 0 table m [])) := rfl

theorem processEdges_null_eq_omit (coll : ModelCollection) (table : String)
    (m : FlatModel) (dep : Nat) (i : Int)
    (rf1 rf2 : String → FlatModel → Except GatherErr (Option GatheredModel))
    (hrf : ∀ t mm, rf1 t mm = rf2 t mm) :
    ∀ (edges : List (String × FkDef)) (acc : List (String × Option GatheredModel)),
      processEdges coll table m dep .null i rf1 edges acc
        = processEdges coll table m dep .omit i rf2 edges acc := by
  intro edges
  induction edges with
  | nil => intro acc; rfl
  | cons e rest ih =>
    intro acc
    obtain ⟨fkName, fkDef⟩ := e
    simp only [processEdges]
    by_cases hsh : invalidShape (jsGet m fkDef.myColumn)
    · simp [hsh]
    · simp only [hsh, Bool.false_eq_true, if_false, if_neg]
      cases hv : (if (jsGet m fkDef.myColumn ≠ JsValue.vNull ∧
            jsGet m fkDef.myColumn ≠ JsValue.vUndefined ∧
            jsGet m fkDef.myColumn ≠ JsValue.vNum 0 : Bool) then
          match jsGet m fkDef.myColumn with
          | .vNum n => collectionGetModel coll fkDef.otherTable n
          | _ => none
        else none) with
      | none => simp [hv, ih]
      | some other =>
        simp only [hv]
        simp only [Option.isSome_some]
        rw [hrf fkDef.otherTable other]
        cases rf2 fkDef.otherTable other with
        | error e => simp
        | ok v => simp [ih]

/-- C4: the `'null'` invalid-reference policy is observationally identical
to `'omit'` throughout reconstruction: `_baseToGatheredModel` returns the
same value under both policies for every table, flat model, depth and
model collection (both abort with `null` for the whole model; `'null'`
never places a `null` into an otherwise-kept model). -/
theorem c4_null_policy_eq_omit (fkDefs : FkDefs) :
    ∀ (d : Nat) (table : String) (m : FlatModel) (coll : ModelCollection),
      baseToGatheredModel fkDefs table m coll d .null
        = baseToGatheredModel fkDefs table m coll d .omit := by
  intro d
  induction d with
  | zero => intro table m coll; rfl
  | succ d ih =>
    intro table m coll
    simp only [baseToGatheredModel]
    cases hid : jsGet m "id" with
    | vNum myId =>
      by_cases h0 : myId = 0
      · simp [h0]
      · simp only [h0, if_false, if_neg]
        exact processEdges_null_eq_omit coll table m (d + 1) myId _ _
          (fun t mm => ih t mm coll) (lookupEdges fkDefs table) []
    | vNull => rfl
    | vUndefined => rfl
    | vStr s => rfl
    | vBool b => rfl

theorem processEdges_keep_ne_ok_none (coll : ModelCollection) (table : String)
    (m : FlatModel) (dep : Nat) (i : Int)
    (rf : String → FlatModel → Except GatherErr (Option GatheredModel)) :
    ∀ (edges : List (String × FkDef)) (acc : List (String × Option GatheredModel)),
      processEdges coll table m dep .keep i rf edges acc ≠ .ok none := by
  intro edges
  induction edges with
  | nil => intro acc; simp [processEdges]
  | cons e rest ih =>
    intro acc
    obtain ⟨fkName, fkDef⟩ := e
    simp only [processEdges]
    by_cases hsh : invalidShape (jsGet m fkDef.myColumn)
    · simp [hsh]
    · simp only [hsh, Bool.false_eq_true, if_false, if_neg]
      cases hv : (if (jsGet m fkDef.myColumn ≠ JsValue.vNull ∧
            jsGet m fkDef.myColumn ≠ JsValue.vUndefined ∧
            jsGet m fkDef.myColumn ≠ JsValue.vNum 0 : Bool) then
          match jsGet m fkDef.myColumn with
          | .vNum n => collectionGetModel coll fkDef.otherTable n
          | _ => none
        else none) with
      | none => simp [hv, ih]
      | some other =>
        simp only [hv]
        cases rf fkDef.otherTable other with
        | error e => simp
        | ok v => simp [ih]

theorem processEdges_keep_invalid_step (coll : ModelCollection) (table : String)
    (m : FlatModel) (dep : Nat) (i : Int)
    (rf : String → FlatModel → Except GatherErr (Option GatheredModel))
    (fkName : String) (fkDef : FkDef) (rest : List (String × FkDef))
    (acc : List (String × Option GatheredModel)) (n : Int)
    (hval : jsGet m fkDef.myColumn = .vNum n) (hn : n ≠ 0)
    (hmiss : collectionGetModel coll fkDef.otherTable n = none) :
    processEdges coll table m dep .keep i rf ((fkName, fkDef) :: rest) acc
      = processEdges coll table m dep .keep i rf rest ((fkName, none) :: acc) := by
  simp [processEdges, hval, invalidShape, hn, hmiss]

/-- C6: under the `keep` policy an invalid reference never aborts
reconstruction.  First conjunct: with `keep`, `_baseToGatheredModel`
never returns `null` for the model (the only `return null` sits in the
`omit`/`null` policy branch).  Second conjunct: an invalid edge (present
non-zero numeric value, no matching row) merely assigns `null` to that
edge's named slot and processing continues with the remaining edges
unchanged.  Third conjunct: for a model whose table declares exactly that
one edge, the result is the non-null gathered model with the invalid
edge's slot set to `null`. -/
theorem c6_keep_policy_no_abort :
    (∀ (fkDefs : FkDefs) (table : String) (m : FlatModel)
        (coll : ModelCollection) (d : Nat),
      baseToGatheredModel fkDefs table m coll d .keep ≠ .ok none) ∧
    (∀ (coll : ModelCollection) (table : String) (m : FlatModel) (dep : Nat)
        (i : Int)
        (rf : String → FlatModel → Except GatherErr (Option GatheredModel))
        (fkName : String) (fkDef : FkDef) (rest : List (String × FkDef))
        (acc : List (String × Option GatheredModel)) (n : Int),
      jsGet m fkDef.myColumn = .vNum n → n ≠ 0 →
      collectionGetModel coll fkDef.otherTable n = none →
      processEdges coll table m dep .keep i rf ((fkName, fkDef) :: rest) acc
        = processEdges coll table m dep .keep i rf rest ((fkName, none) :: acc)) ∧
    (∀ (fkDefs : FkDefs) (table : String) (m : FlatModel)
        (coll : ModelCollection) (d : Nat) (fkName : String) (fkDef : FkDef)
        (i n : Int),
      lookupEdges fkDefs table = [(fkName, fkDef)] →
      jsGet m "id" = .vNum i → i ≠ 0 →
      jsGet m fkDef.myColumn = .vNum n → n ≠ 0 →
      collectionGetModel coll fkDef.otherTable n = none →
      baseToGatheredModel fkDefs table m coll (d + 1) .keep
        = .ok (some (.mk (d + 1) table m [(fkName, none)]))) := by
  refine ⟨?_, ?_, ?_⟩
  · intro fkDefs table m coll d
    cases d with
    | zero => simp [baseToGatheredModel]
    | succ d =>
      simp only [baseToGatheredModel]
      cases hid : jsGet m "id" with
      | vNum myId =>
        by_cases h0 : myId = 0
        · simp [h0]
        · simp only [h0, if_false, if_neg]
          exact processEdges_keep_ne_ok_none coll table m (d + 1) myId _ _ []
      | vNull => simp
      | vUndefined => simp
      | vStr s => simp
      | vBool b => simp
  · intro coll table m dep i rf fkName fkDef rest acc n hval hn hmiss
    exact processEdges_keep_invalid_step coll table m dep i rf fkName fkDef rest acc n hval hn hmiss
  · intro fkDefs table m coll d fkName fkDef i n hedges hid hi hval hn hmiss
    simp only [baseToGatheredModel, hid, hi, if_false, if_neg, hedges]
    rw [processEdges_keep_invalid_step _ _ _ _ _ _ _ _ _ _ n hval hn hmiss]
    simp [processEdges]

/-- Witness for C6 at a concrete input: table `a` with one edge `e` whose
value `9` has no matching `b` row in an empty collection; `keep` returns
the model with the slot set to `null`. -/
theorem c6_keep_policy_no_abort_witness :
    lookupEdges c6FkDefs "a" = [("e", ⟨"x_id", "b", "id", false⟩)] ∧
    jsGet c6M "id" = .vNum 1 ∧
    jsGet c6M "x_id" = .vNum 9 ∧
    collectionGetModel mcEmpty "b" 9 = none ∧
    baseToGatheredModel c6FkDefs "a" c6M mcEmpty 1 .keep
      = .ok (some (.mk 1 "a" c6M [("e", none)])) :=
  ⟨by decide, rfl, rfl, rfl,
    c6_keep_policy_no_abort.2.2 c6FkDefs "a" c6M mcEmpty 0 "e"
      ⟨"x_id", "b", "id", false⟩ 1 9 (by decide) rfl (by decide) rfl
      (by decide) rfl⟩

theorem processEdges_invalidGotOnly (coll : ModelCollection) (table : String)
    (m : FlatModel) (dep : Nat) (pol : Policy) (i : Int)
    (rf : String → FlatModel → Except GatherErr (Option GatheredModel))
    (hrf : ∀ t mm, invalidGotOnly (rf t mm)) :
    ∀ (edges : List (String × FkDef)) (acc : List (String × Option GatheredModel)),
      invalidGotOnly (processEdges coll table m dep pol i rf edges acc) := by
  intro edges
  induction edges with
  | nil => intro acc t' i' a b w h; simp [processEdges] at h
  | cons e rest ih =>
    intro acc t' i' a b w h
    obtain ⟨fkName, fkDef⟩ := e
    cases hval : jsGet m fkDef.myColumn with
    | vStr s =>
      simp [processEdges, hval, invalidShape] at h
      obtain ⟨-, -, -, -, hw⟩ := h
      rw [← hw]; rfl
    | vBool bb =>
      simp [processEdges, hval, invalidShape] at h
      obtain ⟨-, -, -, -, hw⟩ := h
      rw [← hw]; rfl
    | vNull =>
      simp [processEdges, hval, invalidShape] at h
      exact ih _ t' i' a b w h
    | vUndefined =>
      simp [processEdges, hval, invalidShape] at h
      exact ih _ t' i' a b w h
    | vNum n =>
      by_cases hn : n = 0
      · subst hn
        simp [processEdges, hval, invalidShape] at h
        exact ih _ t' i' a b w h
      · cases hg : collectionGetModel coll fkDef.otherTable n with
        | none =>
          cases pol
          · simp [processEdges, hval, invalidShape, hn, hg] at h
          · simp [processEdges, hval, invalidShape, hn, hg] at h
          · simp [processEdges, hval, invalidShape, hn, hg] at h
          · simp [processEdges, hval, invalidShape, hn, hg] at h
            exact ih _ t' i' a b w h
        | some om =>
          have hme : processEdges coll table m dep pol i rf
              ((fkName, fkDef) :: rest) acc =
              match rf fkDef.otherTable om with
              | .error e' => .error e'
              | .ok v => processEdges coll table m dep pol i rf rest ((fkName, v) :: acc) := by
            simp [processEdges, hval, invalidShape, hn, hg]
          rw [hme] at h
          cases hr : rf fkDef.otherTable om with
          | error e' =>
            rw [hr] at h
            simp at h
            exact hrf fkDef.otherTable om t' i' a b w (by rw [hr, h])
          | ok v =>
            rw [hr] at h
            exact ih _ t' i' a b w h

theorem baseToGatheredModel_invalidGotOnly (fkDefs : FkDefs) :
    ∀ (d : Nat) (table : String) (m : FlatModel) (coll : ModelCollection)
      (pol : Policy),
      invalidGotOnly (baseToGatheredModel fkDefs table m coll d pol) := by
  intro d
  induction d with
  | zero => intro table m coll pol t' i' a b w h; simp [baseToGatheredModel] at h
  | succ d ih =>
    intro table m coll pol t' i' a b w h
    cases hid : jsGet m "id" with
    | vNum myId =>
      by_cases h0 : myId = 0
      · simp [baseToGatheredModel, hid, h0] at h
      · have heq : baseToGatheredModel fkDefs table m coll (d + 1) pol
            = processEdges coll table m (d + 1) pol myId
                (fun t mm => baseToGatheredModel fkDefs t mm coll d pol)
                (lookupEdges fkDefs table) [] := by
          simp [baseToGatheredModel, hid, h0]
        rw [heq] at h
        exact processEdges_invalidGotOnly coll table m (d + 1) pol myId _
          (fun t mm => ih t mm coll pol) (lookupEdges fkDefs table) [] t' i' a b w h
    | vNull => simp [baseToGatheredModel, hid] at h
    | vUndefined => simp [baseToGatheredModel, hid] at h
    | vStr s => simp [baseToGatheredModel, hid] at h
    | vBool bb => simp [baseToGatheredModel, hid] at h

/-- C3 (amended): during reconstruction at depth >= 1, reading the first
declared edge's source column raises the fatal `InvalidReferenceValue`
gather error — regardless of the configured policy — if and only if the
stored value is neither null/absent nor a number.  Contrary to the
original claim, a negative number is not a hard error: every numeric
value passes the `typeof` check and flows into the reference lookup
(see the counterexample), while null, absent, or any numeric value never
triggers this error. -/
theorem c3_invalid_value_iff (fkDefs : FkDefs) (table : String)
    (m : FlatModel) (coll : ModelCollection) (d : Nat) (pol : Policy)
    (fkName : String) (fkDef : FkDef) (rest : List (String × FkDef)) (i : Int)
    (hedges : lookupEdges fkDefs table = (fkName, fkDef) :: rest)
    (hid : jsGet m "id" = .vNum i) (hi : i ≠ 0) :
    baseToGatheredModel fkDefs table m coll (d + 1) pol
        = .error (.fkGather table i
            (.invalidValue fkName fkDef.myColumn (jsGet m fkDef.myColumn)))
      ↔ invalidShape (jsGet m fkDef.myColumn) = true := by
  constructor
  · intro h
    exact baseToGatheredModel_invalidGotOnly fkDefs (d + 1) table m coll pol
      table i fkName fkDef.myColumn _ h
  · intro hsh
    have heq : baseToGatheredModel fkDefs table m coll (d + 1) pol
        = processEdges coll table m (d + 1) pol i
            (fun t mm => baseToGatheredModel fkDefs t mm coll d pol)
            (lookupEdges fkDefs table) [] := by
      simp [baseToGatheredModel, hid, hi]
    rw [heq, hedges]
    simp [processEdges, hsh]

/-- Counterexample to C3 as stated: the edge value `-5` is a negative
number, yet reconstruction at depth 1 under the `throw` policy raises no
error at all — the negative value passes the `typeof` check, is looked
up in the collection like any non-zero id, and here even resolves to a
row stored under id `-5`. -/
theorem c3_negative_value_counterexample :
    jsGet c3M "x_id" = .vNum (-5) ∧
    baseToGatheredModel c3FkDefs "a" c3M c3Coll 1 .throw
      = .ok (some (.mk 1 "a" c3M
          [("eneg", some (.mk 0 "b" [("id", .vNum (-5))] []))])) :=
  ⟨rfl, rfl⟩

/-- Witness for C3: a string-valued foreign-key column raises the
`InvalidReferenceValue` gather error. -/
theorem c3_invalid_value_iff_witness :
    lookupEdges c3WFkDefs "a" = [("e", ⟨"x_id", "b", "id", false⟩)] ∧
    jsGet c3WM "id" = .vNum 3 ∧
    baseToGatheredModel c3WFkDefs "a" c3WM mcEmpty 1 .omit
      = .error (.fkGather "a" 3 (.invalidValue "e" "x_id" (.vStr "bad"))) :=
  ⟨by decide, rfl,
    (c3_invalid_value_iff c3WFkDefs "a" c3WM mcEmpty 0 .omit "e"
      ⟨"x_id", "b", "id", false⟩ [] 3 (by decide) rfl (by decide)).mpr rfl⟩

theorem processEdges_throw_mem (coll : ModelCollection) (table : String)
    (m : FlatModel) (dep : Nat) (i : Int)
    (rf : String → FlatModel → Except GatherErr (Option GatheredModel)) :
    ∀ (edges : List (String × FkDef)) (acc : List (String × Option GatheredModel))
      (fkName : String) (fkDef : FkDef) (n : Int),
      (fkName, fkDef) ∈ edges →
      jsGet m fkDef.myColumn = .vNum n → n ≠ 0 →
      collectionGetModel coll fkDef.otherTable n = none →
      ∃ e, processEdges coll table m dep .throw i rf edges acc = .error e := by
  intro edges
  induction edges with
  | nil => intro acc fkName fkDef n hmem; simp at hmem
  | cons e rest ih =>
    intro acc fkName fkDef n hmem hval hn hmiss
    obtain ⟨hdName, hdDef⟩ := e
    rcases List.mem_cons.mp hmem with hhd | htl
    · injection hhd with h1 h2
      subst h1; subst h2
      exact ⟨.fkGather table i (.missingModel fkName fkDef.myColumn (jsGet m fkDef.myColumn)),
        by simp [processEdges, hval, invalidShape, hn, hmiss]⟩
    · cases hv : jsGet m hdDef.myColumn with
      | vStr s =>
        exact ⟨.fkGather table i (.invalidValue hdName hdDef.myColumn (jsGet m hdDef.myColumn)),
          by simp [processEdges, hv, invalidShape]⟩
      | vBool bb =>
        exact ⟨.fkGather table i (.invalidValue hdName hdDef.myColumn (jsGet m hdDef.myColumn)),
          by simp [processEdges, hv, invalidShape]⟩
      | vNull =>
        obtain ⟨e', he'⟩ := ih ((hdName, none) :: acc) fkName fkDef n htl hval hn hmiss
        exact ⟨e', by simp [processEdges, hv, invalidShape]; exact he'⟩
      | vUndefined =>
        obtain ⟨e', he'⟩ := ih ((hdName, none) :: acc) fkName fkDef n htl hval hn hmiss
        exact ⟨e', by simp [processEdges, hv, invalidShape]; exact he'⟩
      | vNum k =>
        by_cases hk : k = 0
        · subst hk
          obtain ⟨e', he'⟩ := ih ((hdName, none) :: acc) fkName fkDef n htl hval hn hmiss
          exact ⟨e', by simp [processEdges, hv, invalidShape]; exact he'⟩
        · cases hg : collectionGetModel coll hdDef.otherTable k with
          | none =>
            exact ⟨.fkGather table i (.missingModel hdName hdDef.myColumn (jsGet m hdDef.myColumn)),
              by simp [processEdges, hv, invalidShape, hk, hg]⟩
          | some om =>
            have hme : processEdges coll table m dep .throw i rf
                ((hdName, hdDef) :: rest) acc =
                match rf hdDef.otherTable om with
                | .error e' => .error e'
                | .ok v => processEdges coll table m dep .throw i rf rest ((hdName, v) :: acc) := by
              simp [processEdges, hv, invalidShape, hk, hg]
            cases hr : rf hdDef.otherTable om with
            | error e' => exact ⟨e', by rw [hme, hr]⟩
            | ok v =>
              obtain ⟨e', he'⟩ := ih ((hdName, v) :: acc) fkName fkDef n htl hval hn hmiss
              exact ⟨e', by rw [hme, hr]; exact he'⟩

/-- C5 (amended): under the `throw` policy, whenever some declared edge of
the model being reconstructed holds a present non-zero numeric value with
no matching row in the collection, the whole call fails with an error and
no partial result (first conjunct).  The thrown `ModelFkGatherError`
describes the first failure encountered: when the invalid edge is the
first declared edge of the model's table, the error's message contains
the model's table name, the model's id, the edge's name, and the missing
referenced id (second conjunct); an earlier invalid edge or a failing
nested reconstruction produces the error for that earlier failure
instead (see the counterexample). -/
theorem c5_throw_policy :
    (∀ (fkDefs : FkDefs) (table : String) (m : FlatModel)
        (coll : ModelCollection) (d : Nat) (fkName : String) (fkDef : FkDef)
        (n : Int),
      (fkName, fkDef) ∈ lookupEdges fkDefs table →
      jsGet m fkDef.myColumn = .vNum n → n ≠ 0 →
      collectionGetModel coll fkDef.otherTable n = none →
      ∃ e, baseToGatheredModel fkDefs table m coll (d + 1) .throw = .error e) ∧
    (∀ (fkDefs : FkDefs) (table : String) (m : FlatModel)
        (coll : ModelCollection) (d : Nat) (fkName : String) (fkDef : FkDef)
        (rest : List (String × FkDef)) (i n : Int),
      lookupEdges fkDefs table = (fkName, fkDef) :: rest →
      jsGet m "id" = .vNum i → i ≠ 0 →
      jsGet m fkDef.myColumn = .vNum n → n ≠ 0 →
      collectionGetModel coll fkDef.otherTable n = none →
      baseToGatheredModel fkDefs table m coll (d + 1) .throw
          = .error (.fkGather table i (.missingModel fkName fkDef.myColumn (.vNum n))) ∧
      strContains
        (renderGatherErr (.fkGather table i (.missingModel fkName fkDef.myColumn (.vNum n))))
        table ∧
      strContains
        (renderGatherErr (.fkGather table i (.missingModel fkName fkDef.myColumn (.vNum n))))
        (toString i) ∧
      strContains
        (renderGatherErr (.fkGather table i (.missingModel fkName fkDef.myColumn (.vNum n))))
        fkName ∧
      strContains
        (renderGatherErr (.fkGather table i (.missingModel fkName fkDef.myColumn (.vNum n))))
        (toString n)) := by
  constructor
  · intro fkDefs table m coll d fkName fkDef n hmem hval hn hmiss
    cases hid : jsGet m "id" with
    | vNum myId =>
      by_cases h0 : myId = 0
      · exact ⟨.generic "Expected model to have a valid id",
          by simp [baseToGatheredModel, hid, h0]⟩
      · have heq : baseToGatheredModel fkDefs table m coll (d + 1) .throw
            = processEdges coll table m (d + 1) .throw myId
                (fun t mm => baseToGatheredModel fkDefs t mm coll d .throw)
                (lookupEdges fkDefs table) [] := by
          simp [baseToGatheredModel, hid, h0]
        obtain ⟨e, he⟩ := processEdges_throw_mem coll table m (d + 1) myId _
          (lookupEdges fkDefs table) [] fkName fkDef n hmem hval hn hmiss
        exact ⟨e, heq.trans he⟩
    | vNull => exact ⟨.generic "Expected model to have a valid id", by simp [baseToGatheredModel, hid]⟩
    | vUndefined => exact ⟨.generic "Expected model to have a valid id", by simp [baseToGatheredModel, hid]⟩
    | vStr s => exact ⟨.generic "Expected model to have a valid id", by simp [baseToGatheredModel, hid]⟩
    | vBool bb => exact ⟨.generic "Expected model to have a valid id", by simp [baseToGatheredModel, hid]⟩
  · intro fkDefs table m coll d fkName fkDef rest i n hedges hid hi hval hn hmiss
    refine ⟨?_, ?_, ?_, ?_, ?_⟩
    · have heq : baseToGatheredModel fkDefs table m coll (d + 1) .throw
          = processEdges coll table m (d + 1) .throw i
              (fun t mm => baseToGatheredModel fkDefs t mm coll d .throw)
              (lookupEdges fkDefs table) [] := by
        simp [baseToGatheredModel, hid, hi]
      rw [heq, hedges]
      simp [processEdges, hval, invalidShape, hn, hmiss]
    · refine (strContains_via_data _ _).mpr
        ⟨("Failed to gather model (table: '").data,
          ("', id: ").data ++ (toString i).data ++ ("): ").data ++
            ("Could not find model for FK reference '").data ++ fkName.data ++
            ("' (column: '").data ++ fkDef.myColumn.data ++
            ("') for id ").data ++ (toString n).data, ?_⟩
      simp [renderGatherErr, renderReason, jsTemplateStr, String.data_append,
        List.append_assoc]
    · refine (strContains_via_data _ _).mpr
        ⟨("Failed to gather model (table: '").data ++ table.data ++ ("', id: ").data,
          ("): ").data ++ ("Could not find model for FK reference '").data ++
            fkName.data ++ ("' (column: '").data ++ fkDef.myColumn.data ++
            ("') for id ").data ++ (toString n).data, ?_⟩
      simp [renderGatherErr, renderReason, jsTemplateStr, String.data_append,
        List.append_assoc]
    · refine (strContains_via_data _ _).mpr
        ⟨("Failed to gather model (table: '").data ++ table.data ++
            ("', id: ").data ++ (toString i).data ++ ("): ").data ++
            ("Could not find model for FK reference '").data,
          ("' (column: '").data ++ fkDef.myColumn.data ++
            ("') for id ").data ++ (toString n).data, ?_⟩
      simp [renderGatherErr, renderReason, jsTemplateStr, String.data_append,
        List.append_assoc]
    · refine (strContains_via_data _ _).mpr
        ⟨("Failed to gather model (table: '").data ++ table.data ++
            ("', id: ").data ++ (toString i).data ++ ("): ").data ++
            ("Could not find model for FK reference '").data ++ fkName.data ++
            ("' (column: '").data ++ fkDef.myColumn.data ++ ("') for id ").data,
          [], ?_⟩
      simp [renderGatherErr, renderReason, jsTemplateStr, String.data_append,
        List.append_assoc]

set_option maxRecDepth 8192 in
/-- Counterexample to C5 as stated: the root model's edge `EDGETWO` holds
the present non-zero value `937` with no `endtbl` row in the collection,
yet the error thrown under the `throw` policy comes from the nested
reconstruction of the `midtbl` row reached through the earlier edge, and
its message contains neither the root model's table `roottbl`, nor its id
`41`, nor the edge name `EDGETWO`, nor the missing id `937`. -/
theorem c5_nested_failure_counterexample :
    ("EDGETWO", (⟨"c_id", "endtbl", "id", false⟩ : FkDef)) ∈
        lookupEdges c5FkDefs "roottbl" ∧
    jsGet c5M "c_id" = .vNum 937 ∧
    collectionGetModel c5Coll "endtbl" 937 = none ∧
    baseToGatheredModel c5FkDefs "roottbl" c5M c5Coll 2 .throw
      = .error (.fkGather "midtbl" 7 (.missingModel "medge" "d_id" (.vNum 555))) ∧
    ¬ strContains
        (renderGatherErr (.fkGather "midtbl" 7 (.missingModel "medge" "d_id" (.vNum 555))))
        "EDGETWO" ∧
    ¬ strContains
        (renderGatherErr (.fkGather "midtbl" 7 (.missingModel "medge" "d_id" (.vNum 555))))
        "roottbl" ∧
    ¬ strContains
        (renderGatherErr (.fkGather "midtbl" 7 (.missingModel "medge" "d_id" (.vNum 555))))
        "937" :=
  ⟨by decide, rfl, rfl, rfl,
    fun h => absurd ((strContains_via_data _ _).mp h) (by decide),
    fun h => absurd ((strContains_via_data _ _).mp h) (by decide),
    fun h => absurd ((strContains_via_data _ _).mp h) (by decide)⟩

/-- Witness for C5 at the spec's own example: user 7 references media_item
999 which is absent; `throw` rejects with an error naming table `user`,
id `7`, edge `avatar_img` and missing id `999`. -/
theorem c5_throw_policy_witness :
    lookupEdges c5WFkDefs "user"
        = [("avatar_img", ⟨"avatar_img_id", "media_item", "id", false⟩)] ∧
    jsGet c5WM "id" = .vNum 7 ∧
    jsGet c5WM "avatar_img_id" = .vNum 999 ∧
    collectionGetModel mcEmpty "media_item" 999 = none ∧
    (baseToGatheredModel c5WFkDefs "user" c5WM mcEmpty 3 .throw
        = .error (.fkGather "user" 7
            (.missingModel "avatar_img" "avatar_img_id" (.vNum 999))) ∧
      strContains
        (renderGatherErr (.fkGather "user" 7
          (.missingModel "avatar_img" "avatar_img_id" (.vNum 999)))) "user" ∧
      strContains
        (renderGatherErr (.fkGather "user" 7
          (.missingModel "avatar_img" "avatar_img_id" (.vNum 999)))) (toString (7 : Int)) ∧
      strContains
        (renderGatherErr (.fkGather "user" 7
          (.missingModel "avatar_img" "avatar_img_id" (.vNum 999)))) "avatar_img" ∧
      strContains
        (renderGatherErr (.fkGather "user" 7
          (.missingModel "avatar_img" "avatar_img_id" (.vNum 999)))) (toString (999 : Int))) :=
  ⟨by decide, rfl, rfl, rfl,
    c5_throw_policy.2 c5WFkDefs "user" c5WM mcEmpty 2 "avatar_img"
      ⟨"avatar_img_id", "media_item", "id", false⟩ [] 7 999 (by decide) rfl
      (by decide) rfl (by decide) rfl⟩

/-- C8: the join planner terminates on every foreign-key graph using only
the depth counter.  First conjunct: for every definition set — cyclic
ones included — `_collectGatherData` returns immediately at depth 0.
Second conjunct: on the two-table cycle `a → b → a`, every admissible
depth bound `d ≤ 3` terminates with exactly `d` join steps — one hop per
remaining level, each recursive call one level shallower.  Third
conjunct: reconstructing the cyclic example at full depth 3 yields the
nested chain a/b/a/b whose innermost model has depth 0 and no expansion. -/
theorem c8_cycle_termination :
    (∀ (fkDefs : FkDefs) (table : String) (qc : QueryContext),
      collectGatherData fkDefs table qc 0 = .ok (qc, [])) ∧
    (∀ d : Nat, d ≤ 3 →
      ∃ p, collectGatherData cycFkDefs "a" cycQc0 d = .ok p ∧ p.2.length = d) ∧
    baseToGatheredModel cycFkDefs "a" cycMa cycColl 3 .throw
      = .ok (some (.mk 3 "a" cycMa
          [("b_fk", some (.mk 2 "b" cycMb
            [("a_fk", some (.mk 1 "a" cycMa
              [("b_fk", some (.mk 0 "b" cycMb []))]))]))])) := by
  refine ⟨fun fkDefs table qc => rfl, ?_, rfl⟩
  intro d hd
  interval_cases d
  · exact ⟨_, rfl, rfl⟩
  · exact ⟨_, rfl, rfl⟩
  · exact ⟨_, rfl, rfl⟩
  · exact ⟨_, rfl, rfl⟩

/-- Witness for C8: the cyclic example planned at the maximum depth 3
terminates with exactly 3 join steps. -/
theorem c8_cycle_termination_witness :
    3 ≤ 3 ∧
    ∃ p, collectGatherData cycFkDefs "a" cycQc0 3 = .ok p ∧ p.2.length = 3 :=
  ⟨by decide, c8_cycle_termination.2.1 3 (by decide)⟩

/-- Counterexample to C1 as stated: a gather call on a root table named
`fk1` that declares one outgoing edge collides with the planner's first
generated alias `fk1`, so the call rejects synchronously during planning
and the executor callback runs zero times, not once. -/
theorem c1_zero_queries_counterexample :
    gatherModelFks c1Rz (fun _ => []) "fk1" {} 0
      = (.error (.generic "Alias \"fk1\" is already in use"), 0) := rfl

/-- C1 (amended): for every gather call, the executor callback wrapping
`ky.execute()` runs exactly once whenever the synchronous join-planning
phase succeeds — regardless of the root table, depth bound, foreign-key
definitions or result rows — and zero times when planning fails (a
duplicate generated alias or an unregistered table rejects before any
query); it never runs more than once. -/
theorem c1_single_query (rz : Rizzolver) (exec : Query → List Row)
    (table : String) (opts : GatherOptsE) (c : Nat) :
    (gatherModelFks rz exec table opts c).2
      = match planGather rz table (opts.depth.getD MAX_FK_GATHER_DEPTH) with
        | .ok _ => c + 1
        | .error _ => c := by
  cases hp : planGather rz table (opts.depth.getD MAX_FK_GATHER_DEPTH) with
  | error e => simp [gatherModelFks, hp]
  | ok p =>
    obtain ⟨qc, items⟩ := p
    simp only [gatherModelFks, hp, qcRun]
    split
    · rfl
    · split <;> rfl

/-- C2 evaluated at the failing input: `gatherOne` with no options parses
and returns the user row, but its `models` field is the freshly created,
never-populated empty collection — `gatherModelFks` only merges the
fetched models into a collection passed through `opts.modelCollection`,
and `gatherOne` does not pass its fresh default down.  Resolving the
fetched row from the returned collection fails (second conjunct), while
the very same call with a caller-supplied collection returns it populated
with the fetched flat model (third and fourth conjuncts). -/
theorem c2_models_field_not_populated :
    gatherOne c2Rz c2Exec "user" none 0
      = (.ok { table := "user", depth := 3,
               result := some (.mk 3 "user" c2UserModel []),
               models := mcEmpty }, 1) ∧
    ModelCollection.get mcEmpty (some "user") (some 1) = .single none ∧
    gatherOne c2Rz c2Exec "user" (some { modelCollection := some mcEmpty }) 0
      = (.ok { table := "user", depth := 3,
               result := some (.mk 3 "user" c2UserModel []),
               models := [("user", [(1, c2UserModel)])] }, 1) ∧
    ModelCollection.get [("user", [(1, c2UserModel)])] (some "user") (some 1)
      = .single (some c2UserModel) :=
  ⟨rfl, rfl, rfl, rfl⟩

theorem lookup_cons_pair {α β : Type} [DecidableEq α] (a k : α) (b : β)
    (l : List (α × β)) :
    List.lookup k ((a, b) :: l) = if k = a then some b else List.lookup k l := by
  by_cases h : k = a
  · simp [List.lookup, h]
  · simp [List.lookup, h, beq_false_of_ne h]

theorem lookup_listUpsert {α β : Type} [DecidableEq α] (l : List (α × β))
    (k k' : α) (v : β) :
    List.lookup k' (listUpsert l k v) = if k' = k then some v else List.lookup k' l := by
  induction l with
  | nil => simp [listUpsert, lookup_cons_pair]
  | cons p rest ih =>
    obtain ⟨a, b⟩ := p
    simp only [listUpsert]
    by_cases hak : a = k
    · subst hak
      by_cases h1 : k' = a <;> simp [lookup_cons_pair, h1]
    · rw [if_neg hak]
      by_cases h1 : k' = a
      · simp [lookup_cons_pair, h1, hak, fun hk => hak (h1.symm.trans hk)]
      · simp [lookup_cons_pair, h1, ih]

theorem mem_listUpsert {α β : Type} [DecidableEq α] (l : List (α × β))
    (k : α) (v : β) (p : α × β) :
    p ∈ listUpsert l k v → p ∈ l ∨ p = (k, v) := by
  induction l with
  | nil => intro h; simp [listUpsert] at h; exact Or.inr h
  | cons q rest ih =>
    obtain ⟨a, b⟩ := q
    by_cases hak : a = k
    · intro h
      rw [listUpsert, if_pos hak] at h
      rcases List.mem_cons.mp h with h1 | h2
      · exact Or.inr h1
      · exact Or.inl (List.mem_cons_of_mem _ h2)
    · intro h
      rw [listUpsert, if_neg hak] at h
      rcases List.mem_cons.mp h with h1 | h2
      · exact Or.inl (h1 ▸ List.mem_cons_self _ _)
      · rcases ih h2 with h3 | h4
        · exact Or.inl (List.mem_cons_of_mem _ h3)
        · exact Or.inr h4

theorem mem_map_fst_listUpsert {α β : Type} [DecidableEq α] (l : List (α × β))
    (k a : α) (v : β) :
    a ∈ (listUpsert l k v).map Prod.fst → a ∈ l.map Prod.fst ∨ a = k := by
  intro h
  obtain ⟨p, hp, rfl⟩ := List.mem_map.mp h
  rcases mem_listUpsert l k v p hp with h1 | h2
  · exact Or.inl (List.mem_map.mpr ⟨p, h1, rfl⟩)
  · exact Or.inr (by rw [h2])

theorem nodup_map_fst_listUpsert {α β : Type} [DecidableEq α] (l : List (α × β))
    (k : α) (v : β) (h : (l.map Prod.fst).Nodup) :
    ((listUpsert l k v).map Prod.fst).Nodup := by
  induction l with
  | nil => simp [listUpsert]
  | cons q rest ih =>
    obtain ⟨a, b⟩ := q
    simp only [List.map_cons, List.nodup_cons] at h
    obtain ⟨ha, hrest⟩ := h
    by_cases hak : a = k
    · rw [listUpsert, if_pos hak]
      simp only [List.map_cons, List.nodup_cons]
      exact ⟨hak ▸ ha, hrest⟩
    · rw [listUpsert, if_neg hak]
      simp only [List.map_cons, List.nodup_cons]
      refine ⟨fun hmem => ?_, ih hrest⟩
      rcases mem_map_fst_listUpsert rest k a v hmem with h1 | h2
      · exact ha h1
      · exact hak h2

theorem lookup_mem {α β : Type} [DecidableEq α] (k : α) (v : β) :
    ∀ l : List (α × β), List.lookup k l = some v → (k, v) ∈ l := by
  intro l
  induction l with
  | nil => intro h; simp [List.lookup] at h
  | cons p rest ih =>
    obtain ⟨a, b⟩ := p
    intro h
    rw [lookup_cons_pair] at h
    by_cases hak : k = a
    · rw [if_pos hak] at h
      obtain rfl := Option.some.inj h
      exact hak ▸ List.mem_cons_self _ _
    · rw [if_neg hak] at h
      exact List.mem_cons_of_mem _ (ih h)

theorem mcWellFormed_add (mc : ModelCollection) (table : String)
    (s : Option FlatModel) (h : mcWellFormed mc) :
    mcWellFormed (mc.add table s) := by
  obtain ⟨houter, hinner⟩ := h
  cases s with
  | none => exact ⟨houter, hinner⟩
  | some sel =>
    cases hidv : List.lookup "id" sel with
    | none => simpa [ModelCollection.add, hidv] using ⟨houter, hinner⟩
    | some v =>
      cases v with
      | vNum n =>
        by_cases hn : n = 0
        · simpa [ModelCollection.add, hidv, hn] using ⟨houter, hinner⟩
        · simp only [ModelCollection.add, hidv, if_neg hn]
          constructor
          · exact nodup_map_fst_listUpsert mc table _ houter
          · intro p hp
            rcases mem_listUpsert mc table _ p hp with h1 | h2
            · exact hinner p h1
            · rw [h2]
              apply nodup_map_fst_listUpsert
              cases hl : List.lookup table mc with
              | none => simp
              | some inn =>
                simpa using hinner (table, inn) (lookup_mem table inn mc hl)
      | vNull => simpa [ModelCollection.add, hidv] using ⟨houter, hinner⟩
      | vUndefined => simpa [ModelCollection.add, hidv] using ⟨houter, hinner⟩
      | vStr str => simpa [ModelCollection.add, hidv] using ⟨houter, hinner⟩
      | vBool bb => simpa [ModelCollection.add, hidv] using ⟨houter, hinner⟩

theorem mcWellFormed_addEntries (tbl : String) :
    ∀ (entries : List (Int × FlatModel)) (acc : ModelCollection),
      mcWellFormed acc →
      mcWellFormed (entries.foldl (fun a2 q => a2.add tbl (some q.2)) acc) := by
  intro entries
  induction entries with
  | nil => intro acc h; exact h
  | cons q rest ih =>
    intro acc h
    exact ih (acc.add tbl (some q.2)) (mcWellFormed_add acc tbl (some q.2) h)

theorem mcWellFormed_addCollection (mc src : ModelCollection)
    (h : mcWellFormed mc) : mcWellFormed (mc.addCollection src) := by
  unfold ModelCollection.addCollection
  induction src generalizing mc with
  | nil => exact h
  | cons p rest ih =>
    exact ih _ (mcWellFormed_addEntries p.1 p.2 mc h)

theorem mc_get_single (mc : ModelCollection) (t' : String) (n' : Int)
    (ht' : t' ≠ "") (hn' : n' ≠ 0) :
    mc.get (some t') (some n')
      = .single ((List.lookup t' mc).bind (fun inner => List.lookup n' inner)) := by
  simp [ModelCollection.get, ht', hn']

theorem add_single_lookup (mc : ModelCollection) (t : String) (sel : FlatModel)
    (t' : String) (n' : Int) (hn' : n' ≠ 0) :
    ((List.lookup t' (mc.add t (some sel))).bind (fun inner => List.lookup n' inner))
      = if t = t' ∧ List.lookup "id" sel = some (.vNum n') then some sel
        else (List.lookup t' mc).bind (fun inner => List.lookup n' inner) := by
  cases hidv : List.lookup "id" sel with
  | none => simp [ModelCollection.add, hidv]
  | some v =>
    cases v with
    | vNum k =>
      by_cases hk : k = 0
      · subst hk
        have hadd : mc.add t (some sel) = mc := by simp [ModelCollection.add, hidv]
        rw [hadd, if_neg (fun h : t = t' ∧ some (JsValue.vNum 0) = some (JsValue.vNum n') =>
          hn' (JsValue.vNum.inj (Option.some.inj h.2)).symm)]
      · by_cases htt : t' = t
        · subst htt
          by_cases hnk : n' = k
          · subst hnk
            simp [ModelCollection.add, hidv, hk, lookup_listUpsert]
          · simp only [ModelCollection.add, hidv, if_neg hk]
            rw [lookup_listUpsert, if_pos rfl, Option.some_bind, lookup_listUpsert,
              if_neg hnk]
            rw [if_neg (fun h : True ∧ some (JsValue.vNum k) = some (JsValue.vNum n') =>
              hnk (JsValue.vNum.inj (Option.some.inj h.2)).symm)]
            cases hmc : List.lookup t' mc with
            | none => simp
            | some inn => simp
        · simp only [ModelCollection.add, hidv, if_neg hk]
          rw [lookup_listUpsert, if_neg htt,
            if_neg (fun hx : t = t' ∧ _ => htt hx.1.symm)]
    | vNull => simp [ModelCollection.add, hidv]
    | vUndefined => simp [ModelCollection.add, hidv]
    | vStr str => simp [ModelCollection.add, hidv]
    | vBool bb => simp [ModelCollection.add, hidv]

theorem mcAddAll_lookup (t' : String) (n' : Int) (hn' : n' ≠ 0) :
    ∀ (adds : List (String × FlatModel)) (mc : ModelCollection),
      ((List.lookup t' (mcAddAll mc adds)).bind (fun inner => List.lookup n' inner))
        = match lastMatch adds t' n' with
          | some r => some r
          | none => (List.lookup t' mc).bind (fun inner => List.lookup n' inner) := by
  intro adds
  induction adds with
  | nil => intro mc; rfl
  | cons p rest ih =>
    intro mc
    obtain ⟨t, m⟩ := p
    rw [show mcAddAll mc ((t, m) :: rest) = mcAddAll (mc.add t (some m)) rest from rfl,
      ih]
    cases hlm : lastMatch rest t' n' with
    | some r => simp [lastMatch, hlm]
    | none =>
      by_cases hc : (t = t' ∧ List.lookup "id" m = some (.vNum n'))
      · obtain ⟨rfl, h2⟩ := hc
        rw [add_single_lookup mc t m t n' hn', if_pos ⟨rfl, h2⟩]
        simp [lastMatch, hlm, h2]
      · rw [add_single_lookup mc t m t' n' hn', if_neg hc]
        simp only [lastMatch, hlm]
        rw [if_neg hc]

/-- C9: the Model Collection keeps at most one flat model per `(table, id)`
pair.  First conjunct: the at-most-one invariant (`mcWellFormed`) holds
for the fresh collection and is preserved by every `add` and every
`addCollection`.  Second conjunct: adding a model whose `(table, id)` key
may already be present overwrites — a subsequent `get` of that key
returns the new model, and every other key is untouched.  Third
conjunct: after any sequence of additions, `get(table, id)` for a
positive id returns the most recently added model with that key, or
falls back to the original contents when the sequence never wrote it. -/
theorem c9_collection_invariant :
    (mcWellFormed mcEmpty ∧
      (∀ (mc : ModelCollection) (t : String) (s : Option FlatModel),
        mcWellFormed mc → mcWellFormed (mc.add t s)) ∧
      (∀ mc src : ModelCollection,
        mcWellFormed mc → mcWellFormed (mc.addCollection src))) ∧
    (∀ (mc : ModelCollection) (t t' : String) (sel : FlatModel) (n n' : Int),
      List.lookup "id" sel = some (.vNum n) → 0 < n → t' ≠ "" → 0 < n' →
      ModelCollection.get (mc.add t (some sel)) (some t') (some n')
        = .single (if t = t' ∧ n = n' then some sel
            else (List.lookup t' mc).bind (fun inner => List.lookup n' inner))) ∧
    (∀ (adds : List (String × FlatModel)) (mc : ModelCollection) (t' : String)
        (n' : Int),
      t' ≠ "" → 0 < n' →
      ModelCollection.get (mcAddAll mc adds) (some t') (some n')
        = .single (match lastMatch adds t' n' with
            | some r => some r
            | none => (List.lookup t' mc).bind (fun inner => List.lookup n' inner))) := by
  refine ⟨⟨⟨List.nodup_nil, by simp [mcEmpty]⟩,
    fun mc t s h => mcWellFormed_add mc t s h,
    fun mc src h => mcWellFormed_addCollection mc src h⟩, ?_, ?_⟩
  · intro mc t t' sel n n' hid hn ht' hn'
    rw [mc_get_single _ _ _ ht' hn'.ne']
    rw [add_single_lookup mc t sel t' n' hn'.ne']
    have hcond : (t = t' ∧ List.lookup "id" sel = some (.vNum n'))
        ↔ (t = t' ∧ n = n') := by
      rw [hid]
      simp
    by_cases hc : (t = t' ∧ n = n')
    · rw [if_pos (hcond.mpr hc), if_pos hc]
    · rw [if_neg (fun hx => hc (hcond.mp hx)), if_neg hc]
  · intro adds mc t' n' ht' hn'
    rw [mc_get_single _ _ _ ht' hn'.ne']
    rw [mcAddAll_lookup t' n' hn'.ne' adds mc]

/-- Witness for C9: adding two models with the same key `(user, 5)` in
sequence, `get` returns the most recently added one. -/
theorem c9_collection_invariant_witness :
    ("user" : String) ≠ "" ∧ (0 : Int) < 5 ∧
    ModelCollection.get (mcAddAll mcEmpty [("user", c9M1), ("user", c9M2)])
        (some "user") (some 5)
      = .single (match lastMatch [("user", c9M1), ("user", c9M2)] "user" 5 with
          | some r => some r
          | none => (List.lookup "user" mcEmpty).bind
              (fun inner => List.lookup (5 : Int) inner)) ∧
    lastMatch [("user", c9M1), ("user", c9M2)] "user" 5 = some c9M2 :=
  ⟨by decide, by decide,
    c9_collection_invariant.2.2 [("user", c9M1), ("user", c9M2)] mcEmpty "user" 5
      (by decide) (by decide), rfl⟩

/-- C10: the truthiness tests in the Model Collection's public interface.
`get(table, 0)` does not perform a single-model lookup: it behaves exactly
like `get(table)` with no id and returns the table's entire id-to-model
record, so id `0` can never be used as a lookup key.  `add` silently
ignores a missing model and any model whose `id` is absent, non-numeric,
or `0`. -/
theorem c10_get_zero_id :
    (∀ (mc : ModelCollection) (t : String),
      mc.get (some t) (some 0) = mc.get (some t) none) ∧
    (∀ (mc : ModelCollection) (t : String), t ≠ "" →
      mc.get (some t) (some 0) = .tableRec ((List.lookup t mc).getD [])) ∧
    (∀ (mc : ModelCollection) (t : String), mc.add t none = mc) ∧
    (∀ (mc : ModelCollection) (t : String) (m : FlatModel),
      List.lookup "id" m = none → mc.add t (some m) = mc) ∧
    (∀ (mc : ModelCollection) (t : String) (m : FlatModel) (v : JsValue),
      List.lookup "id" m = some v → (∀ n : Int, v ≠ .vNum n) →
      mc.add t (some m) = mc) ∧
    (∀ (mc : ModelCollection) (t : String) (m : FlatModel),
      List.lookup "id" m = some (.vNum 0) → mc.add t (some m) = mc) := by
  refine ⟨?_, ?_, ?_, ?_, ?_, ?_⟩
  · intro mc t
    by_cases ht : t = "" <;> simp [ModelCollection.get, ht]
  · intro mc t ht
    simp [ModelCollection.get, ht]
  · intro mc t
    rfl
  · intro mc t m h
    simp [ModelCollection.add, h]
  · intro mc t m v h hv
    cases v with
    | vNum n => exact absurd rfl (hv n)
    | vNull => simp [ModelCollection.add, h]
    | vUndefined => simp [ModelCollection.add, h]
    | vStr s => simp [ModelCollection.add, h]
    | vBool b => simp [ModelCollection.add, h]
  · intro mc t m h
    simp [ModelCollection.add, h]

/-- Witness for C10: `get('user', 0)` on a non-empty collection returns the
table record, and adding a model with id `0` is a no-op. -/
theorem c10_get_zero_id_witness :
    ("user" : String) ≠ "" ∧
    c10Mc.get (some "user") (some 0)
      = .tableRec ((List.lookup "user" c10Mc).getD []) ∧
    List.lookup "id" c10M = some (.vNum 0) ∧
    c10Mc.add "user" (some c10M) = c10Mc :=
  ⟨by decide, c10_get_zero_id.2.1 c10Mc "user" (by decide), rfl,
    c10_get_zero_id.2.2.2.2.2 c10Mc "user" c10M rfl⟩
